import Mathlib

/-!
Verification of the wavelet distributed-ledger core against its
natural-language specification.  The Go sources are shallowly embedded:
`uint64` values are modelled as `Nat` with an explicit `% 2 ^ 64`
wherever Go's wrap-around could be observed, slices become `List`s,
Go maps become association lists, and fallible code returns
`Except String` or `Option`.
-/

namespace Wavelet

/-- Modulus of Go's `uint64`. -/
def U64 : Nat := 2 ^ 64

/-! ## timestamp.go: computeMedianTimestamp -/

/-- Embedding of `computeMedianTimestamp` (timestamp.go, lines 5-17).
The Go function sorts the input slice in place with `sort.Slice`
(ascending by `<`) and then returns, for even length, the sum of the two
halved middle elements, and for odd length the middle element.  Because
Go mutates the argument slice, the embedding returns the pair
(median, post-state of the slice).  The addition in the even branch is
`uint64` addition, hence the explicit modulus.  (For an empty slice the
even branch's index `len/2 - 1` would panic in Go; the claim under
verification quantifies only over non-empty slices.)  `sort.Slice` is
modelled by insertion sort, a comparison sort with the same behaviour
on `Nat` keys. -/
def computeMedianTimestamp (timestamps : List Nat) : Nat × List Nat :=
  let sorted := List.insertionSort (· ≤ ·) timestamps
  let n := sorted.length
  let median :=
    if n % 2 = 0 then
      (sorted.getD (n / 2 - 1) 0 / 2 + sorted.getD (n / 2) 0 / 2) % U64
    else
      sorted.getD (n / 2) 0
  (median, sorted)

/-! ## Ledger.ListTransactions (part_002, lines 424-452) -/

/-- The fields of a transaction that `Ledger.ListTransactions` inspects.
Account IDs are modelled as `Nat`, with `0` playing the role of
`common.ZeroAccountID`. -/
structure LedgerTx where
  id : Nat
  sender : Nat
  creator : Nat
  depth : Nat
deriving DecidableEq

/-- The filter applied to the view-graph's transaction map by
`Ledger.ListTransactions`: keep everything when both filters are zero,
otherwise match on a non-zero sender or a non-zero creator. -/
def matchesFilter (sender creator : Nat) (tx : LedgerTx) : Bool :=
  (sender == 0 && creator == 0) || (sender != 0 && tx.sender == sender) ||
    (creator != 0 && tx.creator == creator)

instance : DecidableRel (fun (a b : LedgerTx) => a.depth ≤ b.depth) :=
  fun a b => Nat.decLe a.depth b.depth

/-- Embedding of `Ledger.ListTransactions` (part_002, lines 424-452):
filter the stored transactions, sort ascending by depth (`sort.Slice`),
then paginate.  When `offset` or `limit` is non-zero, an
`offset >= limit` or an `offset` past the end returns `nil` (the empty
list); otherwise `limit` is clipped to the remaining length and the
slice `[offset : offset+limit]` is returned.  `offset + limit` is
`uint64` arithmetic; in the wrapped corner where Go's slice bounds would
be inverted Go panics, while the `List.take` below returns `[]`.
`sort.Slice` is modelled by insertion sort (Go's sort is an unspecified,
not necessarily stable, comparison sort; no verified claim depends on
the order of equal-depth transactions). -/
def ListTransactions (txs : List LedgerTx) (offset limit : Nat)
    (sender creator : Nat) : List LedgerTx :=
  let matched := txs.filter (matchesFilter sender creator)
  let sorted := List.insertionSort (fun a b => a.depth ≤ b.depth) matched
  if offset ≠ 0 ∨ limit ≠ 0 then
    if offset ≥ limit ∨ offset ≥ sorted.length then []
    else
      if (offset + limit) % U64 > sorted.length then
        (sorted.drop offset).take (sorted.length - offset)
      else
        (sorted.drop offset).take ((offset + limit) % U64 - offset)
  else sorted

/-! ## checkIfOutOfSync, decided branch (part_002, lines 1327-1340) -/

/-- The (ID, view ID) pair of a root transaction as inspected by the
out-of-sync check. -/
structure RootTx where
  id : Nat
  viewID : Nat
deriving DecidableEq

/-- What the decided branch of `checkIfOutOfSync` does next. -/
inductive SyncCheckAction where
  /-- Sleep, reset the sync Snowball, and return `nil`: no transition. -/
  | resetSnowball
  /-- Return `ErrOutOfSync`, transitioning the state machine to syncing. -/
  | signalOutOfSync
deriving DecidableEq

/-- Embedding of the decided branch of `checkIfOutOfSync` (part_002,
lines 1327-1340).  Once the sync Snowball has decided on the peer root
`peerRoot`, the code resets the Snowball when the local root's ID equals
the peer root's ID or when `localViewID >= peerRoot.viewID + 1`
(`uint64` increment), and otherwise returns `ErrOutOfSync`. -/
def checkIfOutOfSyncDecided (localRootID localViewID : Nat)
    (peerRoot : RootTx) : SyncCheckAction :=
  if localRootID = peerRoot.id ∨ localViewID ≥ (peerRoot.viewID + 1) % U64 then
    .resetSnowball
  else
    .signalOutOfSync

/-! ## listenForQueries, response selection (part_002, lines 1238-1269) -/

/-- The fields of a transaction that the querying-state query listener
inspects. -/
structure QueryTx where
  id : Nat
  viewID : Nat
deriving DecidableEq

/-- Embedding of the response selection of `listenForQueries` (part_002,
lines 1254-1260).  The consumer answers with the current root when the
root's view ID is non-zero and the querier's transaction carries that
same view ID, otherwise with the round Snowball's preferred transaction
when one exists, and otherwise with `nil`. -/
def listenForQueriesResponse (root : QueryTx) (preferred : Option QueryTx)
    (queryTx : QueryTx) : Option QueryTx :=
  if root.viewID ≠ 0 ∧ queryTx.viewID = root.viewID then
    some root
  else
    match preferred with
    | some p => some p
    | none => none

/-! ## syncUp, response grouping and selection (part_002, lines 1458-1476) -/

/-- The metadata a peer returns to a sync-init broadcast: the responder,
its view ID, and the chunk hashes of its diff.  Hashes and protocol IDs
are modelled as `Nat`. -/
structure SyncInitMetadata where
  user : Nat
  viewID : Nat
  chunkHashes : List Nat
deriving DecidableEq

/-- Embedding of the vote-grouping and selection step of `syncUp`
(part_002, lines 1458-1476).  The responses are grouped by view ID; if
some group's size is at least `len(votes)*2/3` (integer division) the
code sets `selected = votes` — the whole response list — and proceeds;
otherwise it fails with `ErrSyncFailed` ("no consensus on which view ID
to sync towards"), modelled as `none`.  Go iterates the group map in
unspecified order, but the outcome depends only on whether some group
reaches the threshold, captured here by `List.any` over the votes. -/
def syncUpSelect (votes : List SyncInitMetadata) : Option (List SyncInitMetadata) :=
  if votes.any (fun v =>
      (votes.filter (fun w => w.viewID == v.viewID)).length ≥ votes.length * 2 / 3)
  then some votes
  else none

/-! ## Snowball engine

Modelled from the spec: the Snowball implementation itself is not among
the repository sources here (only `snowball_test.go` and its callers
are), so the engine is modelled from spec §4.4.  Candidate objects carry
an identity hash (`Nat`); the stake-weighted `f64` tallies are modelled
as `Rat`. -/

/-- A Snowball candidate: an object with an identity hash.  Modelled
from the spec ("Generic over candidate type C with identity hash"); the
payload stands for the rest of the candidate object. -/
structure SnowCand where
  id : Nat
  payload : Nat
deriving DecidableEq

/-- Modelled from the spec: the Snowball state of §4.4 — parameters K, α,
β, the nullable preferred candidate, the last-ticked candidate ID, the
consecutive-confirmation count, the per-candidate lifetime tallies, the
per-candidate object map, and the decided flag. -/
structure Snowball where
  k : Nat
  alpha : Rat
  beta : Nat
  preferred : Option SnowCand
  lastID : Nat
  count : Nat
  counts : List (Nat × Rat)
  candidates : List (Nat × SnowCand)
  decided : Bool
deriving DecidableEq

/-- Association-list lookup with a default, standing for Go map access. -/
def assocGetD {β : Type} (l : List (Nat × β)) (a : Nat) (d : β) : β :=
  ((l.find? (fun p => p.1 == a)).map (fun p => p.2)).getD d

/-- Association-list update, standing for Go map assignment. -/
def assocSet {β : Type} : List (Nat × β) → Nat → β → List (Nat × β)
  | [], a, v => [(a, v)]
  | (b, w) :: rest, a, v =>
    if b == a then (a, v) :: rest else (b, w) :: assocSet rest a v

/-- Modelled from the spec: step 2 of `Tick` — the argmax of the
incoming counts, tie-broken towards the smaller (lexicographically
first) candidate ID. -/
def snowballArgmax : List (Nat × Rat) → Option (Nat × Rat)
  | [] => none
  | x :: rest =>
    match snowballArgmax rest with
    | none => some x
    | some b =>
      if x.2 > b.2 then some x
      else if x.2 = b.2 ∧ x.1 < b.1 then some x
      else some b

/-- Modelled from the spec: `Tick(counts, candidates)` of §4.4.  If
decided, return.  Otherwise pick the argmax of the incoming counts; an
empty or sub-α sample resets the consecutive count and zeroes the last
ID; otherwise the consecutive count is incremented (or restarted at
one), the argmax's weight is added to its lifetime tally, its candidate
object is recorded, the preferred candidate switches when the argmax's
lifetime tally strictly exceeds the preferred's, and the instance
decides once the consecutive count reaches β. -/
def snowballTick (s : Snowball) (incoming : List (Nat × Rat))
    (cands : List (Nat × SnowCand)) : Snowball :=
  if s.decided then s
  else
    match snowballArgmax incoming with
    | none => { s with count := 0, lastID := 0 }
    | some (cid, w) =>
      if w < s.alpha then { s with count := 0, lastID := 0 }
      else
        let count := if cid = s.lastID then s.count + 1 else 1
        let counts := assocSet s.counts cid (assocGetD s.counts cid 0 + w)
        let candidates :=
          match (cands.find? (fun p => p.1 == cid)).map (fun p => p.2) with
          | some c => assocSet s.candidates cid c
          | none => s.candidates
        let prefTally :=
          match s.preferred with
          | none => 0
          | some p => assocGetD counts p.id 0
        let preferred :=
          if assocGetD counts cid 0 > prefTally then
            (cands.find? (fun p => p.1 == cid)).map (fun p => p.2)
          else s.preferred
        { s with
          count := count
          lastID := cid
          counts := counts
          candidates := candidates
          preferred := preferred
          decided := decide (count ≥ s.beta) }

/-! ## Merkle AVL tree diffs

Modelled from the spec: the AVL package's implementation is not among
the repository sources here (only `avl/tree_test.go` is), so the
versioned tree, `DumpDiff`, and `ApplyDiff` are modelled from spec §4.1.
Keys and values are byte strings, modelled as `Nat`; the BLAKE2b-256
node hash is modelled by the node's self-describing serialization
itself (an injective stand-in). -/

/-- Modelled from the spec: an AVL node is a leaf carrying a key and a
value, or an inner node carrying a routing key and two children; every
node records the tree view ID at which it was last modified. -/
inductive AvlNode where
  | leaf (key value viewID : Nat)
  | inner (key viewID : Nat) (left right : AvlNode)
deriving DecidableEq

/-- The view ID stamped on a node when it was last modified. -/
def AvlNode.stamp : AvlNode → Nat
  | .leaf _ _ vid => vid
  | .inner _ vid _ _ => vid

/-- The largest view-ID stamp anywhere in a subtree: the view ID of the
subtree's last content change. -/
def AvlNode.maxStamp : AvlNode → Nat
  | .leaf _ _ vid => vid
  | .inner _ vid l r => max vid (max l.maxStamp r.maxStamp)

/-- Modelled from the spec: the self-describing node serialization
(kind, key, value for leaves, children for inner nodes, view ID), which
also stands in for the node's BLAKE2b-256 hash. -/
def AvlNode.serialize : AvlNode → List Nat
  | .leaf k v vid => [0, k, v, vid]
  | .inner k vid l r => [1, k, vid] ++ l.serialize ++ r.serialize

/-- The key/value contents of a subtree, in-order. -/
def AvlNode.contents : AvlNode → List (Nat × Nat)
  | .leaf k v _ => [(k, v)]
  | .inner _ _ l r => l.contents ++ r.contents

/-- Modelled from the spec: a tree instance is a root pointer plus the
tree's monotonic view ID. -/
structure AvlTree where
  root : Option AvlNode
  viewID : Nat
deriving DecidableEq

/-- Modelled from the spec: `SetViewID` — raise the tree's view ID
without touching its contents. -/
def AvlTree.setViewID (t : AvlTree) (u : Nat) : AvlTree :=
  { t with viewID := u }

/-- Modelled from the spec: `Checksum` — the root hash (here the root
serialization), the accounts checksum. -/
def AvlTree.checksum (t : AvlTree) : List Nat :=
  match t.root with
  | none => []
  | some n => n.serialize

/-- The key/value contents of the tree, in-order. -/
def AvlTree.contents (t : AvlTree) : List (Nat × Nat) :=
  match t.root with
  | none => []
  | some n => n.contents

/-- The view ID of the tree's last content change (0 for an empty
tree). -/
def AvlTree.lastChange (t : AvlTree) : Nat :=
  match t.root with
  | none => 0
  | some n => n.maxStamp

/-- Modelled from the spec: `DumpDiff(since)` walks the tree depth-first
and emits every maximal subtree whose root's view-ID stamp exceeds
`since`, pruning descent into subtrees stamped at or below `since`
(node stamps are the maximum over the subtree, so nothing below a
pruned node can exceed `since`).  The byte stream of serialized
subtrees is modelled as the list of the subtrees themselves. -/
def AvlTree.dumpDiff (t : AvlTree) (since : Nat) : List AvlNode :=
  match t.root with
  | none => []
  | some n => if since < n.stamp then [n] else []

/-- Standard ordered-map insertion used to graft a reconstructed leaf
into the tree (the AVL rebalancing rotations of spec §4.1 affect only
the shape, not the contents, and are not modelled). -/
def AvlNode.insertKV (k v vid : Nat) : AvlNode → AvlNode
  | .leaf k2 v2 vid2 =>
    if k = k2 then .leaf k v vid
    else if k < k2 then .inner k2 vid (.leaf k v vid) (.leaf k2 v2 vid2)
    else .inner k vid (.leaf k2 v2 vid2) (.leaf k v vid)
  | .inner k2 vid2 l r =>
    if k < k2 then .inner k2 (max vid vid2) (l.insertKV k v vid) r
    else .inner k2 (max vid vid2) l (r.insertKV k v vid)

/-- Modelled from the spec: grafting one reconstructed subtree into the
tree — each of its leaves is inserted in order. -/
def graftSubtree (root : Option AvlNode) (sub : AvlNode) : Option AvlNode :=
  sub.contents.foldl
    (fun r kv =>
      match r with
      | none => some (.leaf kv.1 kv.2 sub.stamp)
      | some n => some (n.insertKV kv.1 kv.2 sub.stamp))
    root

/-- Modelled from the spec: `ApplyDiff` reconstructs the subtrees of the
diff stream and grafts them in; the tree's view ID is raised to the
largest view ID carried by the diff (an empty diff raises nothing). -/
def AvlTree.applyDiff (t : AvlTree) (diff : List AvlNode) : AvlTree :=
  { root := diff.foldl graftSubtree t.root
    viewID := diff.foldl (fun m s => max m s.maxStamp) t.viewID }

/-! ## collapseTransactions and rewardValidators (part_002, lines 542-745)

Transaction IDs and account IDs are modelled as `Nat`; the view-graph's
transaction map becomes a list looked up by ID.  The account snapshot
keeps the projections the collapse path reads and writes
(`ReadAccountBalance`, `ReadAccountStake`, `WriteAccountBalance`) as
association lists, plus the tree view ID set by `SetViewID`. -/

/-- The fields of a transaction used by `collapseTransactions` and
`rewardValidators`. -/
structure CTx where
  id : Nat
  sender : Nat
  parentIDs : List Nat
  depth : Nat
  viewID : Nat
deriving DecidableEq

/-- The view-graph's transaction map. -/
abbrev ViewGraph := List CTx

/-- `graph.lookupTransaction`: find a transaction by ID. -/
def lookupTx (g : ViewGraph) (i : Nat) : Option CTx :=
  g.find? (fun t => t.id == i)

/-- The accounts snapshot as seen by the collapse path: the tree's view
ID together with the balance and stake projections. -/
structure Snapshot where
  viewID : Nat
  balances : List (Nat × Nat)
  stakes : List (Nat × Nat)
deriving DecidableEq

/-- `ReadAccountBalance`: a missing entry reads as 0, as the Go call
sites use the value of a `(0, false)` result. -/
def readAccountBalance (ss : Snapshot) (a : Nat) : Nat :=
  assocGetD ss.balances a 0

/-- `ReadAccountStake`: a missing entry reads as 0. -/
def readAccountStake (ss : Snapshot) (a : Nat) : Nat :=
  assocGetD ss.stakes a 0

/-- `WriteAccountBalance`. -/
def writeAccountBalance (ss : Snapshot) (a v : Nat) : Snapshot :=
  { ss with balances := assocSet ss.balances a v }

/-- The `sys` parameters read by the collapse path:
`MaxEligibleParentsDepthDiff`, `MinimumStake`, and
`TransactionFeeAmount`. -/
structure RewardConfig where
  maxDepthDiff : Nat
  minStake : Nat
  fee : Nat
deriving DecidableEq

/-- The per-transaction application `applyTransactionToSnapshot`
(part_002, lines 613-622).  Its body dispatches to the processor
registered for the transaction's tag — a collaborator outside the
collapse code — so it is a parameter of the embedding. -/
abbrev ApplyFn := Snapshot → CTx → Except String Snapshot

/-- The inner loop of the reward traversal (part_002, lines 671-679):
walk a popped transaction's parent IDs in order, enqueueing each parent
that has not been visited yet and exists in the view-graph, and marking
every not-yet-visited parent ID as visited. -/
def enqueueUnvisited (g : ViewGraph) :
    List Nat → List CTx → List Nat → List CTx × List Nat
  | [], q, vis => (q, vis)
  | pid :: pids, q, vis =>
    if pid ∈ vis then enqueueUnvisited g pids q vis
    else
      match lookupTx g pid with
      | some parent => enqueueUnvisited g pids (q ++ [parent]) (pid :: vis)
      | none => enqueueUnvisited g pids q (pid :: vis)

/-- The initial loop of `rewardValidators` (part_002, lines 632-638):
enqueue every parent of the rewarded transaction that exists in the
view-graph and mark every parent ID as visited (no duplicate check). -/
def rewardInitLoop (g : ViewGraph) :
    List Nat → List CTx → List Nat → List CTx × List Nat
  | [], q, vis => (q, vis)
  | pid :: pids, q, vis =>
    match lookupTx g pid with
    | some parent => rewardInitLoop g pids (q ++ [parent]) (pid :: vis)
    | none => rewardInitLoop g pids q (pid :: vis)

/-- The candidate condition of the reward traversal (part_002, lines
652-669): an ancestor from a different sender whose stake strictly
exceeds `sys.MinimumStake`. -/
def rewardEligible (cfg : RewardConfig) (ss : Snapshot) (tx popped : CTx) :
    Prop :=
  popped.sender ≠ tx.sender ∧ cfg.minStake < readAccountStake ss popped.sender

instance (cfg : RewardConfig) (ss : Snapshot) (tx popped : CTx) :
    Decidable (rewardEligible cfg ss tx popped) :=
  inferInstanceAs (Decidable (_ ∧ _))

/-- The breadth-first reward traversal of part_002, lines 643-680: pop a
transaction; if its depth is more than `sys.MaxEligibleParentsDepthDiff`
below the rewarded transaction's depth, skip it without descending;
otherwise collect it as a candidate when eligible and enqueue its
unvisited parents.  The returned list is the candidates in traversal
order; `fuel` bounds the loop (Go's loop terminates because the
visited-ID map is bounded by the finite graph), and exhausting it yields
`none`. -/
def rewardBFS (g : ViewGraph) (cfg : RewardConfig) (ss : Snapshot) (tx : CTx) :
    Nat → List CTx → List Nat → List CTx → Option (List CTx)
  | 0, q, _, acc =>
    match q with
    | [] => some acc
    | _ :: _ => none
  | fuel + 1, q, vis, acc =>
    match q with
    | [] => some acc
    | popped :: rest =>
      if popped.depth + cfg.maxDepthDiff < tx.depth then
        rewardBFS g cfg ss tx fuel rest vis acc
      else
        let acc2 := if rewardEligible cfg ss tx popped then acc ++ [popped] else acc
        let qv := enqueueUnvisited g popped.parentIDs rest vis
        rewardBFS g cfg ss tx fuel qv.1 qv.2 acc2

/-- The candidate list computed by `rewardValidators` for a transaction:
initial queue from the transaction's parents, then the bounded
breadth-first traversal. -/
def rewardCandidates (g : ViewGraph) (cfg : RewardConfig) (ss : Snapshot)
    (tx : CTx) (fuel : Nat) : Option (List CTx) :=
  let qv := rewardInitLoop g tx.parentIDs [] []
  rewardBFS g cfg ss tx fuel qv.1 qv.2 []

/-- The wrapped `uint64` accumulation `totalStake += stake` over the
candidates' stakes (part_002, line 661). -/
def totalStakeWrapped (ss : Snapshot) (cands : List CTx) : Nat :=
  (cands.map (fun c => readAccountStake ss c.sender)).foldl
    (fun a s => (a + s) % U64) 0

/-- Embedding of `rewardValidators` (part_002, lines 624-732).  After
the candidate traversal, an empty candidate set (or a zero total stake)
rewards no one; otherwise a rewardee is drawn from the candidates.  The
draw itself — BLAKE2b entropy over the candidate IDs and a
`float64`-weighted threshold walk with a last-candidate fallback — is
floating-point arithmetic over an external hash and is abstracted as the
`pick` parameter; none of the verified claims depend on which candidate
is chosen.  If the rewarded transaction's sender cannot pay
`sys.TransactionFeeAmount` the routine fails without touching the
snapshot; otherwise the fee moves from sender to rewardee (balances are
read before either write, as in Go). -/
def rewardValidators (pick : List (CTx × Nat) → CTx) (g : ViewGraph)
    (cfg : RewardConfig) (fuel : Nat) (ss : Snapshot) (tx : CTx) :
    Except String Snapshot :=
  match rewardCandidates g cfg ss tx fuel with
  | none => .error "reward traversal fuel exhausted"
  | some candidates =>
    let stakes := candidates.map (fun c => readAccountStake ss c.sender)
    if candidates.length = 0 ∨ candidates.length ≠ stakes.length ∨
        totalStakeWrapped ss candidates = 0 then .ok ss
    else
      let rewardee := pick (candidates.zip stakes)
      let senderBalance := readAccountBalance ss tx.sender
      let recipientBalance := readAccountBalance ss rewardee.sender
      if senderBalance < cfg.fee then
        .error "sender does not have enough PERLs to pay transaction fees"
      else
        .ok (writeAccountBalance
              (writeAccountBalance ss tx.sender (senderBalance - cfg.fee))
              rewardee.sender ((recipientBalance + cfg.fee) % U64))

/-- The initial loop of `collapseTransactions` (part_002, lines
553-561): enqueue every parent of the critical transaction, failing if
any is missing from the view-graph, and mark the parent IDs visited. -/
def collapseInitLoop (g : ViewGraph) :
    List Nat → List CTx → List Nat → Except String (List CTx × List Nat)
  | [], q, vis => .ok (q, vis)
  | pid :: pids, q, vis =>
    match lookupTx g pid with
    | some parent => collapseInitLoop g pids (q ++ [parent]) (pid :: vis)
    | none => .error "not all ancestry of tx provided are available"

/-- The inner loop of the collapse traversal (part_002, lines 568-578):
like `enqueueUnvisited`, but a missing unvisited parent aborts the
collapse. -/
def enqueueUnvisitedStrict (g : ViewGraph) :
    List Nat → List CTx → List Nat → Except String (List CTx × List Nat)
  | [], q, vis => .ok (q, vis)
  | pid :: pids, q, vis =>
    if pid ∈ vis then enqueueUnvisitedStrict g pids q vis
    else
      match lookupTx g pid with
      | some parent => enqueueUnvisitedStrict g pids (q ++ [parent]) (pid :: vis)
      | none => .error "not all ancestry of tx provided are available"

/-- The ancestry-collection traversal of `collapseTransactions`
(part_002, lines 563-581): breadth-first from the critical transaction's
parents, accumulating the popped transactions in traversal order (the
`applyQueue`).  `fuel` bounds the loop; exhausting it is reported as an
error so that the collection phase stays total. -/
def collapseBFS (g : ViewGraph) :
    Nat → List CTx → List Nat → List CTx → Except String (List CTx)
  | 0, q, _, acc =>
    match q with
    | [] => .ok acc
    | _ :: _ => .error "collapse traversal fuel exhausted"
  | fuel + 1, q, vis, acc =>
    match q with
    | [] => .ok acc
    | popped :: rest =>
      match enqueueUnvisitedStrict g popped.parentIDs rest vis with
      | .error e => .error e
      | .ok qv => collapseBFS g fuel qv.1 qv.2 (acc ++ [popped])

/-- The application loop of `collapseTransactions` (part_002, lines
585-608): for each transaction (the `applyQueue` popped from the back,
i.e. in reverse traversal order), apply it to the snapshot — an
application error is logged and the snapshot keeps its previous value —
and then run `rewardValidators`, whose error is likewise only logged. -/
def collapseApplyLoop (applyTx : ApplyFn) (pick : List (CTx × Nat) → CTx)
    (g : ViewGraph) (cfg : RewardConfig) (fuel : Nat) :
    Snapshot → List CTx → Snapshot
  | ss, [] => ss
  | ss, t :: rest =>
    let ss1 := match applyTx ss t with
      | .ok s2 => s2
      | .error _ => ss
    let ss2 := match rewardValidators pick g cfg fuel ss1 t with
      | .ok s3 => s3
      | .error _ => ss1
    collapseApplyLoop applyTx pick g cfg fuel ss2 rest

/-- Embedding of `collapseTransactions` (part_002, lines 542-611): start
from a snapshot whose view ID is set to `root.viewID + 1` (`uint64`
increment), collect the critical transaction's ancestry breadth-first —
failing only when ancestry is missing — pre-marking the current root as
visited, and apply the collected transactions in reverse traversal
order, logging and skipping every per-transaction failure. -/
def collapseTransactions (applyTx : ApplyFn) (pick : List (CTx × Nat) → CTx)
    (g : ViewGraph) (cfg : RewardConfig) (fuel : Nat) (root : CTx)
    (ss0 : Snapshot) (tx : CTx) : Except String Snapshot :=
  let ss := { ss0 with viewID := (root.viewID + 1) % U64 }
  match collapseInitLoop g tx.parentIDs [] [root.id] with
  | .error e => .error e
  | .ok qv =>
    match collapseBFS g fuel qv.1 qv.2 [] with
    | .error e => .error e
    | .ok anc => .ok (collapseApplyLoop applyTx pick g cfg fuel ss anc.reverse)

/-! ## Theorems -/

/-- Every position of the sorted timestamp list holds a value of the
original list (or the default 0 out of range), hence below `U64`. -/
theorem insertionSort_getD_lt_U64 (ts : List Nat) (hbound : ∀ x ∈ ts, x < U64)
    (i : Nat) : (List.insertionSort (· ≤ ·) ts).getD i 0 < U64 := by
  set s := List.insertionSort (· ≤ ·) ts with hs
  rcases Nat.lt_or_ge i s.length with h | h
  · rw [List.getD_eq_getElem s 0 h]
    exact hbound _ ((List.perm_insertionSort _ ts).mem_iff.mp (s.getElem_mem h))
  · rw [List.getD_eq_default s 0 h]
    decide

/-- C10: for a non-empty list of `uint64` timestamps,
`computeMedianTimestamp` returns, with `s` the sorted permutation of the
input, the middle element `s[n/2]` when the length `n` is odd and
`s[n/2-1]/2 + s[n/2]/2` when `n` is even — which at `[1, 3]` is one less
than the floor of the true average of the two middle elements — and the
input slice's post-state is `s`. -/
theorem computeMedianTimestamp_spec (ts : List Nat) (hne : ts ≠ [])
    (hbound : ∀ x ∈ ts, x < U64) :
    (computeMedianTimestamp ts).2.Perm ts ∧
    (computeMedianTimestamp ts).2.Sorted (· ≤ ·) ∧
    (computeMedianTimestamp ts).2 = List.insertionSort (· ≤ ·) ts ∧
    (ts.length % 2 = 1 →
      (computeMedianTimestamp ts).1 =
        (List.insertionSort (· ≤ ·) ts).getD (ts.length / 2) 0) ∧
    (ts.length % 2 = 0 →
      (computeMedianTimestamp ts).1 =
        (List.insertionSort (· ≤ ·) ts).getD (ts.length / 2 - 1) 0 / 2 +
          (List.insertionSort (· ≤ ·) ts).getD (ts.length / 2) 0 / 2) ∧
    (computeMedianTimestamp [1, 3]).1 + 1 = (1 + 3) / 2 := by
  have hlen : (List.insertionSort (· ≤ ·) ts).length = ts.length :=
    List.length_insertionSort ..
  refine ⟨List.perm_insertionSort _ ts, List.sorted_insertionSort _ ts, rfl,
    ?_, ?_, by rfl⟩
  · intro hodd
    show (if (List.insertionSort (· ≤ ·) ts).length % 2 = 0 then _ else _) = _
    rw [hlen, hodd]
    simp
  · intro heven
    show (if (List.insertionSort (· ≤ ·) ts).length % 2 = 0 then _ else _) = _
    rw [hlen, heven]
    rw [if_pos rfl]
    have h1 := insertionSort_getD_lt_U64 ts hbound (ts.length / 2 - 1)
    have h2 := insertionSort_getD_lt_U64 ts hbound (ts.length / 2)
    have hU : U64 = 2 ^ 64 := rfl
    apply Nat.mod_eq_of_lt
    omega

/-- Witness for C10 at the concrete input `[3, 1, 2]`. -/
theorem computeMedianTimestamp_spec_witness :
    (computeMedianTimestamp [3, 1, 2]).2.Perm [3, 1, 2] ∧
    (computeMedianTimestamp [3, 1, 2]).2.Sorted (· ≤ ·) ∧
    (computeMedianTimestamp [3, 1, 2]).2 = List.insertionSort (· ≤ ·) [3, 1, 2] ∧
    (([3, 1, 2] : List Nat).length % 2 = 1 →
      (computeMedianTimestamp [3, 1, 2]).1 =
        (List.insertionSort (· ≤ ·) [3, 1, 2]).getD
          (([3, 1, 2] : List Nat).length / 2) 0) ∧
    (([3, 1, 2] : List Nat).length % 2 = 0 →
      (computeMedianTimestamp [3, 1, 2]).1 =
        (List.insertionSort (· ≤ ·) [3, 1, 2]).getD
            (([3, 1, 2] : List Nat).length / 2 - 1) 0 / 2 +
          (List.insertionSort (· ≤ ·) [3, 1, 2]).getD
            (([3, 1, 2] : List Nat).length / 2) 0 / 2) ∧
    (computeMedianTimestamp [1, 3]).1 + 1 = (1 + 3) / 2 :=
  computeMedianTimestamp_spec [3, 1, 2] (by decide) (by decide)

/-- C9: whenever `offset` or `limit` is non-zero and `offset >= limit`
or `offset` is at least the number of matching transactions,
`Ledger.ListTransactions` returns `nil` — in particular a non-zero
offset with `limit <= offset` yields no results even when matching
transactions exist. -/
theorem ListTransactions_paging_nil (txs : List LedgerTx)
    (offset limit sender creator : Nat)
    (hnz : offset ≠ 0 ∨ limit ≠ 0)
    (hcut : offset ≥ limit ∨ offset ≥ (txs.filter (matchesFilter sender creator)).length) :
    ListTransactions txs offset limit sender creator = [] := by
  unfold ListTransactions
  have hlen : (List.insertionSort (fun (a b : LedgerTx) => a.depth ≤ b.depth)
      (txs.filter (matchesFilter sender creator))).length =
      (txs.filter (matchesFilter sender creator)).length := List.length_insertionSort ..
  rw [if_pos hnz, if_pos (by rw [hlen]; exact hcut)]

/-- Witness for C9: one matching transaction exists, yet
`offset = limit = 1` returns the empty list. -/
theorem ListTransactions_paging_nil_witness :
    ListTransactions [⟨1, 5, 5, 0⟩] 1 1 0 0 = [] ∧
    (([⟨1, 5, 5, 0⟩] : List LedgerTx).filter (matchesFilter 0 0)).length = 1 :=
  ⟨ListTransactions_paging_nil [⟨1, 5, 5, 0⟩] 1 1 0 0 (by decide) (by decide),
    by decide⟩

/-- C3 counterexample: with local view ID 1 and a decided peer root of
view ID 1 (an ID different from the local root's), the code signals
`ErrOutOfSync` even though the peer's view ID is not strictly greater
than the local view ID plus one. -/
theorem checkIfOutOfSyncDecided_counterexample :
    checkIfOutOfSyncDecided 0 1 ⟨1, 1⟩ = .signalOutOfSync ∧
    ¬ (1 + 1 < (⟨1, 1⟩ : RootTx).viewID) := by
  decide

/-- C3 amended: for non-wrapping peer view IDs, the decided branch of
`checkIfOutOfSync` signals `ErrOutOfSync` exactly when the decided peer
root's ID differs from the local root's ID and the peer root's view ID
is at least the local view ID; in every other decided case the sync
Snowball is reset. -/
theorem checkIfOutOfSyncDecided_spec (localRootID localViewID : Nat)
    (peerRoot : RootTx) (hnowrap : peerRoot.viewID + 1 < U64) :
    checkIfOutOfSyncDecided localRootID localViewID peerRoot = .signalOutOfSync ↔
      (localRootID ≠ peerRoot.id ∧ localViewID ≤ peerRoot.viewID) := by
  unfold checkIfOutOfSyncDecided
  rw [Nat.mod_eq_of_lt hnowrap]
  split
  · rename_i h
    constructor
    · intro hc
      exact absurd hc (by simp)
    · rintro ⟨hid, hle⟩
      rcases h with h | h
      · exact absurd h hid
      · omega
  · rename_i h
    push_neg at h
    exact ⟨fun _ => ⟨h.1, by omega⟩, fun _ => rfl⟩

/-- Witness for C3's amended theorem at a concrete decided state. -/
theorem checkIfOutOfSyncDecided_spec_witness :
    checkIfOutOfSyncDecided 3 2 ⟨4, 5⟩ = .signalOutOfSync ↔
      ((3 : Nat) ≠ 4 ∧ (2 : Nat) ≤ 5) :=
  checkIfOutOfSyncDecided_spec 3 2 ⟨4, 5⟩ (by decide)

/-- C7 counterexample: when the current root's view ID is 0 and the
querier's transaction carries the same view ID 0, the code answers
`nil` (given no preferred transaction) rather than the root. -/
theorem listenForQueriesResponse_counterexample :
    listenForQueriesResponse ⟨7, 0⟩ none ⟨9, 0⟩ = none ∧
    (⟨9, 0⟩ : QueryTx).viewID = (⟨7, 0⟩ : QueryTx).viewID := by
  decide

/-- C7 amended: in the querying state each incoming query is answered
with exactly one of three responses — the prior-round root whenever the
root's view ID is non-zero and the querier's transaction view ID equals
it; otherwise the locally preferred transaction when one exists;
otherwise null. -/
theorem listenForQueriesResponse_spec (root : QueryTx)
    (preferred : Option QueryTx) (queryTx : QueryTx) :
    listenForQueriesResponse root preferred queryTx =
      if root.viewID ≠ 0 ∧ queryTx.viewID = root.viewID then some root
      else preferred := by
  unfold listenForQueriesResponse
  split
  · rfl
  · cases preferred <;> rfl

/-- C1: at the failing input — three sync-init responses, two with view
ID 5 and one with view ID 1 — the selection step of `syncUp` proceeds
with the entire response list (`selected = votes`): the view-ID-1
responder, whose group is a strict minority, is among the selected
responders, contradicting selection of exactly the two-thirds view-ID
group. -/
theorem syncUpSelect_selects_all_votes :
    syncUpSelect [⟨1, 5, []⟩, ⟨2, 5, []⟩, ⟨3, 1, []⟩] =
      some [⟨1, 5, []⟩, ⟨2, 5, []⟩, ⟨3, 1, []⟩] ∧
    (⟨3, 1, []⟩ : SyncInitMetadata) ∈
      ([⟨1, 5, []⟩, ⟨2, 5, []⟩, ⟨3, 1, []⟩] : List SyncInitMetadata) ∧
    (([⟨1, 5, []⟩, ⟨2, 5, []⟩, ⟨3, 1, []⟩] : List SyncInitMetadata).filter
        (fun w => w.viewID == 1)).length * 3 <
      ([⟨1, 5, []⟩, ⟨2, 5, []⟩, ⟨3, 1, []⟩] : List SyncInitMetadata).length * 2 := by
  decide

/-- C6: ticking a decided Snowball instance changes nothing — the whole
state (preferred candidate, tallies, candidate map, consecutive count,
decided flag) is returned unchanged. -/
theorem snowballTick_decided_noop (s : Snowball) (incoming : List (Nat × Rat))
    (cands : List (Nat × SnowCand)) (h : s.decided = true) :
    snowballTick s incoming cands = s := by
  unfold snowballTick
  rw [h]
  rfl

/-- Witness for C6: a concrete decided instance ticked with a fresh
unanimous vote stays identical. -/
theorem snowballTick_decided_noop_witness :
    snowballTick
        { k := 1, alpha := 1 / 2, beta := 11, preferred := some ⟨5, 0⟩,
          lastID := 5, count := 11, counts := [(5, 11)],
          candidates := [(5, ⟨5, 0⟩)], decided := true }
        [(6, 1)] [(6, ⟨6, 0⟩)] =
      { k := 1, alpha := 1 / 2, beta := 11, preferred := some ⟨5, 0⟩,
        lastID := 5, count := 11, counts := [(5, 11)],
        candidates := [(5, ⟨5, 0⟩)], decided := true } :=
  snowballTick_decided_noop _ [(6, 1)] [(6, ⟨6, 0⟩)] rfl

/-- A node's own stamp never exceeds the subtree's maximal stamp. -/
theorem AvlNode.stamp_le_maxStamp (n : AvlNode) : n.stamp ≤ n.maxStamp := by
  cases n with
  | leaf k v vid => exact Nat.le_refl _
  | inner k vid l r => exact Nat.le_max_left _ _

/-- C8: applying an empty diff to a Merkle AVL tree — including the
degenerate diff dumped since a view ID at or beyond the tree's last
content change, also after only the tree's view ID was raised — leaves
the tree, its contents, and its checksum unchanged. -/
theorem applyDiff_empty_noop (t : AvlTree) (since u : Nat)
    (h : t.lastChange ≤ since) :
    t.applyDiff [] = t ∧
    t.dumpDiff since = [] ∧
    t.applyDiff (t.dumpDiff since) = t ∧
    (t.applyDiff (t.dumpDiff since)).contents = t.contents ∧
    (t.applyDiff (t.dumpDiff since)).checksum = t.checksum ∧
    (t.setViewID u).applyDiff ((t.setViewID u).dumpDiff since) = t.setViewID u := by
  have hdump : ∀ t2 : AvlTree, t2.root = t.root → t2.dumpDiff since = [] := by
    intro t2 ht2
    unfold AvlTree.dumpDiff
    rw [ht2]
    unfold AvlTree.lastChange at h
    cases hr : t.root with
    | none => rfl
    | some n =>
      rw [hr] at h
      have hms : n.maxStamp ≤ since := h
      have hst := n.stamp_le_maxStamp
      show (if since < n.stamp then [n] else []) = []
      rw [if_neg (by omega)]
  have hempty : ∀ t2 : AvlTree, t2.applyDiff [] = t2 := fun _ => rfl
  have hd := hdump t rfl
  refine ⟨hempty t, hd, ?_, ?_, ?_, ?_⟩
  · rw [hd]; exact hempty t
  · rw [hd]; rfl
  · rw [hd]; rfl
  · rw [hdump (t.setViewID u) rfl]; exact hempty _

/-- Witness for C8 at a concrete committed tree whose last content
change happened at view ID 3. -/
theorem applyDiff_empty_noop_witness :
    (⟨some (.inner 1 3 (.leaf 0 5 2) (.leaf 2 7 3)), 10⟩ : AvlTree).applyDiff [] =
      ⟨some (.inner 1 3 (.leaf 0 5 2) (.leaf 2 7 3)), 10⟩ ∧
    (⟨some (.inner 1 3 (.leaf 0 5 2) (.leaf 2 7 3)), 10⟩ : AvlTree).dumpDiff 3 = [] ∧
    (⟨some (.inner 1 3 (.leaf 0 5 2) (.leaf 2 7 3)), 10⟩ : AvlTree).applyDiff
        ((⟨some (.inner 1 3 (.leaf 0 5 2) (.leaf 2 7 3)), 10⟩ : AvlTree).dumpDiff 3) =
      ⟨some (.inner 1 3 (.leaf 0 5 2) (.leaf 2 7 3)), 10⟩ ∧
    ((⟨some (.inner 1 3 (.leaf 0 5 2) (.leaf 2 7 3)), 10⟩ : AvlTree).applyDiff
        ((⟨some (.inner 1 3 (.leaf 0 5 2) (.leaf 2 7 3)), 10⟩ : AvlTree).dumpDiff 3)).contents =
      (⟨some (.inner 1 3 (.leaf 0 5 2) (.leaf 2 7 3)), 10⟩ : AvlTree).contents ∧
    ((⟨some (.inner 1 3 (.leaf 0 5 2) (.leaf 2 7 3)), 10⟩ : AvlTree).applyDiff
        ((⟨some (.inner 1 3 (.leaf 0 5 2) (.leaf 2 7 3)), 10⟩ : AvlTree).dumpDiff 3)).checksum =
      (⟨some (.inner 1 3 (.leaf 0 5 2) (.leaf 2 7 3)), 10⟩ : AvlTree).checksum ∧
    ((⟨some (.inner 1 3 (.leaf 0 5 2) (.leaf 2 7 3)), 10⟩ : AvlTree).setViewID 42).applyDiff
        (((⟨some (.inner 1 3 (.leaf 0 5 2) (.leaf 2 7 3)), 10⟩ : AvlTree).setViewID 42).dumpDiff 3) =
      (⟨some (.inner 1 3 (.leaf 0 5 2) (.leaf 2 7 3)), 10⟩ : AvlTree).setViewID 42 :=
  applyDiff_empty_noop ⟨some (.inner 1 3 (.leaf 0 5 2) (.leaf 2 7 3)), 10⟩ 3 42
    (by decide)

/-- C4: `collapseTransactions` never aborts because a per-transaction
application fails — whenever the ancestry-collection phase succeeds
(the critical transaction's full ancestry is available in the
view-graph), the collapse returns a snapshot and no error for every
per-transaction application function and rewardee choice whatsoever:
application and reward failures are only logged, and the remaining
transactions are still folded into the returned snapshot. -/
theorem collapseTransactions_no_abort (applyTx : ApplyFn)
    (pick : List (CTx × Nat) → CTx) (g : ViewGraph) (cfg : RewardConfig)
    (fuel : Nat) (root : CTx) (ss0 : Snapshot) (tx : CTx)
    (qv : List CTx × List Nat) (anc : List CTx)
    (hinit : collapseInitLoop g tx.parentIDs [] [root.id] = .ok qv)
    (hbfs : collapseBFS g fuel qv.1 qv.2 [] = .ok anc) :
    collapseTransactions applyTx pick g cfg fuel root ss0 tx =
      .ok (collapseApplyLoop applyTx pick g cfg fuel
            { ss0 with viewID := (root.viewID + 1) % U64 } anc.reverse) := by
  unfold collapseTransactions
  simp only [hinit, hbfs]

/-- Concrete view-graph for the C4 witness: the current root and one
non-root ancestor. -/
def c4Graph : ViewGraph := [⟨0, 100, [], 0, 0⟩, ⟨2, 200, [0], 1, 0⟩]

/-- An application function that fails on every transaction. -/
def c4Apply : ApplyFn := fun _ _ => .error "application always fails"

/-- A concrete rewardee choice: the first candidate. -/
def c4Pick : List (CTx × Nat) → CTx := fun l => (l.headD (⟨0, 0, [], 0, 0⟩, 0)).1

/-- Witness for C4: with the full ancestry present and an application
function that fails on every single transaction, the collapse still
returns a snapshot and no error. -/
theorem collapseTransactions_no_abort_witness :
    collapseTransactions c4Apply c4Pick c4Graph ⟨2, 1, 1⟩ 10 ⟨0, 100, [], 0, 0⟩
        ⟨0, [], []⟩ ⟨5, 9, [2], 2, 0⟩ =
      .ok (collapseApplyLoop c4Apply c4Pick c4Graph ⟨2, 1, 1⟩ 10
            { viewID := ((0 : Nat) + 1) % U64, balances := [], stakes := [] }
            ([⟨2, 200, [0], 1, 0⟩] : List CTx).reverse) :=
  collapseTransactions_no_abort c4Apply c4Pick c4Graph ⟨2, 1, 1⟩ 10
    ⟨0, 100, [], 0, 0⟩ ⟨0, [], []⟩ ⟨5, 9, [2], 2, 0⟩
    ([⟨2, 200, [0], 1, 0⟩], [2, 0]) [⟨2, 200, [0], 1, 0⟩] (by rfl) (by rfl)

/-- Concrete view-graph for the C2 counterexample: the current root, a
stake-rich ancestor of sender 200, and a transaction of sender 300
(whose balance is 0, below the fee of 1). -/
def c2Graph : ViewGraph :=
  [⟨0, 100, [], 0, 0⟩, ⟨2, 200, [0], 1, 0⟩, ⟨1, 300, [2], 2, 0⟩]

/-- The initial accounts snapshot for the C2 counterexample: all
balances zero, account 200 holding stake 10. -/
def c2SS : Snapshot := ⟨0, [], [(200, 10)]⟩

/-- An application function writing, per transaction, a distinct marker
balance (account `1000 + id` gets 7): its write is the transaction's
observable effect on the snapshot. -/
def c2Apply : ApplyFn := fun ss t => .ok (writeAccountBalance ss (1000 + t.id) 7)

/-- C2 counterexample: collapsing transaction 1's ancestry applies
transaction 1 — whose sender 300 has balance 0, below the fee 1 — so
per the claim none of its effects may remain; yet the collapse
succeeds and transaction 1's marker write survives in the returned
snapshot, while `rewardValidators` merely fails (the failure that is
logged) without undoing anything. -/
theorem collapse_insufficient_fee_effects_remain :
    readAccountBalance c2SS 300 < (1 : Nat) ∧
    (collapseTransactions c2Apply c4Pick c2Graph ⟨2, 1, 1⟩ 10 ⟨0, 100, [], 0, 0⟩
        c2SS ⟨5, 9, [1], 3, 0⟩).toOption.map
        (fun ss => readAccountBalance ss 1001) = some 7 ∧
    (rewardValidators c4Pick c2Graph ⟨2, 1, 1⟩ 10
        (writeAccountBalance (writeAccountBalance
          { c2SS with viewID := 1 } 1002 7) 1001 7)
        ⟨1, 300, [2], 2, 0⟩).toOption = none := by
  decide

/-- C2 amended: when a transaction processed during collapse has a
sender balance (after its own application) below the fee and eligible
reward candidates exist, only the validator reward is rejected: the
reward routine fails — the failure the code logs — and the collapse
step keeps the snapshot exactly as the transaction's application left
it, retaining all of the transaction's effects and continuing with the
remaining transactions. -/
theorem collapse_step_insufficient_fee (applyTx : ApplyFn)
    (pick : List (CTx × Nat) → CTx) (g : ViewGraph) (cfg : RewardConfig)
    (fuel : Nat) (ss ss1 : Snapshot) (t : CTx) (rest : List CTx)
    (cands : List CTx)
    (happly : applyTx ss t = .ok ss1)
    (hcands : rewardCandidates g cfg ss1 t fuel = some cands)
    (hne : cands ≠ [])
    (hts : totalStakeWrapped ss1 cands ≠ 0)
    (hbal : readAccountBalance ss1 t.sender < cfg.fee) :
    (rewardValidators pick g cfg fuel ss1 t).toOption = none ∧
    collapseApplyLoop applyTx pick g cfg fuel ss (t :: rest) =
      collapseApplyLoop applyTx pick g cfg fuel ss1 rest := by
  have hr : rewardValidators pick g cfg fuel ss1 t =
      .error "sender does not have enough PERLs to pay transaction fees" := by
    unfold rewardValidators
    simp only [hcands]
    rw [if_neg (by
      push_neg
      refine ⟨?_, ?_, hts⟩
      · simpa [List.length_eq_zero] using hne
      · simp [List.length_map])]
    rw [if_pos hbal]
  constructor
  · rw [hr]
    rfl
  · have step : collapseApplyLoop applyTx pick g cfg fuel ss (t :: rest) =
        (let s1 := match applyTx ss t with
          | .ok s2 => s2
          | .error _ => ss
         let s2 := match rewardValidators pick g cfg fuel s1 t with
          | .ok s3 => s3
          | .error _ => s1
         collapseApplyLoop applyTx pick g cfg fuel s2 rest) := rfl
    rw [step]
    simp only [happly, hr]

/-- The snapshot reached in the C2 witness after the ancestor's marker
write. -/
def c2StepSS : Snapshot := writeAccountBalance { c2SS with viewID := 1 } 1002 7

/-- The snapshot reached in the C2 witness after transaction 1's own
marker write. -/
def c2StepSS1 : Snapshot := writeAccountBalance c2StepSS 1001 7

/-- Witness for C2's amended theorem at the concrete collapse step of
transaction 1 (sender 300, balance 0, fee 1, one eligible candidate). -/
theorem collapse_step_insufficient_fee_witness :
    (rewardValidators c4Pick c2Graph ⟨2, 1, 1⟩ 10 c2StepSS1
        ⟨1, 300, [2], 2, 0⟩).toOption = none ∧
    collapseApplyLoop c2Apply c4Pick c2Graph ⟨2, 1, 1⟩ 10 c2StepSS
        [⟨1, 300, [2], 2, 0⟩] =
      collapseApplyLoop c2Apply c4Pick c2Graph ⟨2, 1, 1⟩ 10 c2StepSS1 [] :=
  collapse_step_insufficient_fee c2Apply c4Pick c2Graph ⟨2, 1, 1⟩ 10 c2StepSS
    c2StepSS1 ⟨1, 300, [2], 2, 0⟩ [] [⟨2, 200, [0], 1, 0⟩]
    (by rfl) (by rfl) (by decide) (by decide) (by decide)

/-! ## C5: the reward candidate set

The claim compares the traversal's candidate list against the set of
ancestors of the rewarded transaction within the eligible depth window.
Ancestry is the transitive closure of the present-parent relation. -/

/-- `y` is a parent of `x` present in the view-graph. -/
def ParentOf (g : ViewGraph) (x y : CTx) : Prop :=
  ∃ pid, pid ∈ x.parentIDs ∧ lookupTx g pid = some y

/-- `a` is a (proper) ancestor of `tx`: reachable from `tx` by one or
more present-parent steps. -/
def AncestorOf (g : ViewGraph) (tx a : CTx) : Prop :=
  Relation.TransGen (ParentOf g) tx a

/-- Decidable check that one transaction's recorded depth strictly
exceeds each of its present parents' depths. -/
def depthMonoAt (g : ViewGraph) (x : CTx) : Bool :=
  x.parentIDs.all (fun pid =>
    match lookupTx g pid with
    | some p => decide (p.depth < x.depth)
    | none => true)

/-- Decidable check of the view-graph depth invariant (spec §3: depth =
max parent depth + 1) at the rewarded transaction and at every graph
member: depth strictly decreases along present-parent edges. -/
def depthMono (g : ViewGraph) (tx : CTx) : Bool :=
  depthMonoAt g tx && g.all (depthMonoAt g)

/-- The corrected description of a reward candidate: an ancestor within
`sys.MaxEligibleParentsDepthDiff` of the rewarded transaction's depth,
from a different sender, whose stake strictly exceeds
`sys.MinimumStake`. -/
def eligibleAncestor (g : ViewGraph) (cfg : RewardConfig) (ss : Snapshot)
    (tx a : CTx) : Prop :=
  AncestorOf g tx a ∧ tx.depth ≤ a.depth + cfg.maxDepthDiff ∧
    a.sender ≠ tx.sender ∧ cfg.minStake < readAccountStake ss a.sender

theorem lookupTx_mem {g : ViewGraph} {i : Nat} {t : CTx}
    (h : lookupTx g i = some t) : t ∈ g :=
  List.mem_of_find?_eq_some h

theorem lookupTx_id {g : ViewGraph} {i : Nat} {t : CTx}
    (h : lookupTx g i = some t) : t.id = i := by
  have := List.find?_some h
  simpa using this

theorem ancestorOf_mem {g : ViewGraph} {tx a : CTx}
    (h : AncestorOf g tx a) : a ∈ g := by
  cases h with
  | single h1 =>
    obtain ⟨pid, _, hl⟩ := h1
    exact lookupTx_mem hl
  | tail _ h1 =>
    obtain ⟨pid, _, hl⟩ := h1
    exact lookupTx_mem hl

theorem depthMono_parent {g : ViewGraph} {tx : CTx}
    (hmono : depthMono g tx = true) {x a : CTx}
    (hx : x = tx ∨ x ∈ g) (hpar : ParentOf g x a) : a.depth < x.depth := by
  obtain ⟨pid, hpid, hl⟩ := hpar
  have hat : depthMonoAt g x = true := by
    unfold depthMono at hmono
    simp only [Bool.and_eq_true] at hmono
    rcases hx with hx | hx
    · subst hx
      exact hmono.1
    · exact (List.all_eq_true.mp hmono.2) x hx
  unfold depthMonoAt at hat
  have := (List.all_eq_true.mp hat) pid hpid
  rw [hl] at this
  exact of_decide_eq_true this

/-! ### Lemmas about `enqueueUnvisited` -/

theorem enqueueUnvisited_vis_sub (g : ViewGraph) :
    ∀ pids q vis, ∀ i ∈ vis, i ∈ (enqueueUnvisited g pids q vis).2 := by
  intro pids
  induction pids with
  | nil => intro q vis i hi; exact hi
  | cons pid rest ih =>
    intro q vis i hi
    unfold enqueueUnvisited
    by_cases hv : pid ∈ vis
    · rw [if_pos hv]
      exact ih q vis i hi
    · rw [if_neg hv]
      cases hl : lookupTx g pid with
      | some parent => exact ih (q ++ [parent]) (pid :: vis) i (by simp [hi])
      | none => exact ih q (pid :: vis) i (by simp [hi])

theorem enqueueUnvisited_q_sub (g : ViewGraph) :
    ∀ pids q vis, ∀ c ∈ q, c ∈ (enqueueUnvisited g pids q vis).1 := by
  intro pids
  induction pids with
  | nil => intro q vis c hc; exact hc
  | cons pid rest ih =>
    intro q vis c hc
    unfold enqueueUnvisited
    by_cases hv : pid ∈ vis
    · rw [if_pos hv]
      exact ih q vis c hc
    · rw [if_neg hv]
      cases hl : lookupTx g pid with
      | some parent => exact ih (q ++ [parent]) (pid :: vis) c (by simp [hc])
      | none => exact ih q (pid :: vis) c hc

theorem enqueueUnvisited_pids_vis (g : ViewGraph) :
    ∀ pids q vis, ∀ pid ∈ pids, pid ∈ (enqueueUnvisited g pids q vis).2 := by
  intro pids
  induction pids with
  | nil => intro q vis pid h; cases h
  | cons pid0 rest ih =>
    intro q vis pid hpid
    unfold enqueueUnvisited
    rcases List.mem_cons.mp hpid with h | h
    · subst h
      by_cases hv : pid ∈ vis
      · rw [if_pos hv]
        exact enqueueUnvisited_vis_sub g rest q vis pid hv
      · rw [if_neg hv]
        cases hl : lookupTx g pid with
        | some parent =>
          exact enqueueUnvisited_vis_sub g rest (q ++ [parent]) (pid :: vis) pid
            (by simp)
        | none =>
          exact enqueueUnvisited_vis_sub g rest q (pid :: vis) pid (by simp)
    · by_cases hv : pid0 ∈ vis
      · rw [if_pos hv]
        exact ih q vis pid h
      · rw [if_neg hv]
        cases hl : lookupTx g pid0 with
        | some parent => exact ih (q ++ [parent]) (pid0 :: vis) pid h
        | none => exact ih q (pid0 :: vis) pid h

theorem enqueueUnvisited_q_origin (g : ViewGraph) :
    ∀ pids q vis, ∀ c ∈ (enqueueUnvisited g pids q vis).1,
      c ∈ q ∨ ∃ pid ∈ pids, lookupTx g pid = some c := by
  intro pids
  induction pids with
  | nil => intro q vis c hc; exact .inl hc
  | cons pid0 rest ih =>
    intro q vis c hc
    unfold enqueueUnvisited at hc
    by_cases hv : pid0 ∈ vis
    · rw [if_pos hv] at hc
      rcases ih q vis c hc with h | ⟨pid, hpid, hl⟩
      · exact .inl h
      · exact .inr ⟨pid, by simp [hpid], hl⟩
    · rw [if_neg hv] at hc
      cases hl0 : lookupTx g pid0 with
      | some parent =>
        rw [hl0] at hc
        rcases ih (q ++ [parent]) (pid0 :: vis) c hc with h | ⟨pid, hpid, hl⟩
        · rcases List.mem_append.mp h with h | h
          · exact .inl h
          · have : c = parent := by simpa using h
            exact .inr ⟨pid0, by simp, this ▸ hl0⟩
        · exact .inr ⟨pid, by simp [hpid], hl⟩
      | none =>
        rw [hl0] at hc
        rcases ih q (pid0 :: vis) c hc with h | ⟨pid, hpid, hl⟩
        · exact .inl h
        · exact .inr ⟨pid, by simp [hpid], hl⟩

theorem enqueueUnvisited_fresh_enqueued (g : ViewGraph) :
    ∀ pids q vis, ∀ pid ∈ pids, pid ∉ vis →
      ∀ p, lookupTx g pid = some p → p ∈ (enqueueUnvisited g pids q vis).1 := by
  intro pids
  induction pids with
  | nil => intro q vis pid h; cases h
  | cons pid0 rest ih =>
    intro q vis pid hpid hnv p hl
    unfold enqueueUnvisited
    rcases List.mem_cons.mp hpid with h | h
    · subst h
      rw [if_neg hnv, hl]
      exact enqueueUnvisited_q_sub g rest (q ++ [p]) (pid :: vis) p (by simp)
    · by_cases hv0 : pid0 ∈ vis
      · rw [if_pos hv0]
        exact ih q vis pid h hnv p hl
      · rw [if_neg hv0]
        by_cases heq : pid = pid0
        · subst heq
          rw [hl]
          exact enqueueUnvisited_q_sub g rest (q ++ [p]) (pid :: vis) p (by simp)
        · cases hl0 : lookupTx g pid0 with
          | some parent =>
            exact ih (q ++ [parent]) (pid0 :: vis) pid h
              (by simp [heq, hnv]) p hl
          | none =>
            exact ih q (pid0 :: vis) pid h (by simp [heq, hnv]) p hl

theorem enqueueUnvisited_vis_origin (g : ViewGraph) :
    ∀ pids q vis, ∀ i ∈ (enqueueUnvisited g pids q vis).2,
      i ∈ vis ∨ i ∈ pids := by
  intro pids
  induction pids with
  | nil => intro q vis i hi; exact .inl hi
  | cons pid0 rest ih =>
    intro q vis i hi
    unfold enqueueUnvisited at hi
    by_cases hv : pid0 ∈ vis
    · rw [if_pos hv] at hi
      rcases ih q vis i hi with h | h
      · exact .inl h
      · exact .inr (by simp [h])
    · rw [if_neg hv] at hi
      cases hl0 : lookupTx g pid0 with
      | some parent =>
        rw [hl0] at hi
        rcases ih (q ++ [parent]) (pid0 :: vis) i hi with h | h
        · rcases List.mem_cons.mp h with h | h
          · exact .inr (by simp [h])
          · exact .inl h
        · exact .inr (by simp [h])
      | none =>
        rw [hl0] at hi
        rcases ih q (pid0 :: vis) i hi with h | h
        · rcases List.mem_cons.mp h with h | h
          · exact .inr (by simp [h])
          · exact .inl h
        · exact .inr (by simp [h])

/-! ### Lemmas about `rewardInitLoop` -/

theorem rewardInitLoop_vis_sub (g : ViewGraph) :
    ∀ pids q vis, ∀ i ∈ vis, i ∈ (rewardInitLoop g pids q vis).2 := by
  intro pids
  induction pids with
  | nil => intro q vis i hi; exact hi
  | cons pid rest ih =>
    intro q vis i hi
    unfold rewardInitLoop
    cases hl : lookupTx g pid with
    | some parent => exact ih (q ++ [parent]) (pid :: vis) i (by simp [hi])
    | none => exact ih q (pid :: vis) i (by simp [hi])

theorem rewardInitLoop_q_sub (g : ViewGraph) :
    ∀ pids q vis, ∀ c ∈ q, c ∈ (rewardInitLoop g pids q vis).1 := by
  intro pids
  induction pids with
  | nil => intro q vis c hc; exact hc
  | cons pid rest ih =>
    intro q vis c hc
    unfold rewardInitLoop
    cases hl : lookupTx g pid with
    | some parent => exact ih (q ++ [parent]) (pid :: vis) c (by simp [hc])
    | none => exact ih q (pid :: vis) c hc

theorem rewardInitLoop_pids_vis (g : ViewGraph) :
    ∀ pids q vis, ∀ pid ∈ pids, pid ∈ (rewardInitLoop g pids q vis).2 := by
  intro pids
  induction pids with
  | nil => intro q vis pid h; cases h
  | cons pid0 rest ih =>
    intro q vis pid hpid
    unfold rewardInitLoop
    rcases List.mem_cons.mp hpid with h | h
    · subst h
      cases hl : lookupTx g pid with
      | some parent =>
        exact rewardInitLoop_vis_sub g rest (q ++ [parent]) (pid :: vis) pid (by simp)
      | none => exact rewardInitLoop_vis_sub g rest q (pid :: vis) pid (by simp)
    · cases hl : lookupTx g pid0 with
      | some parent => exact ih (q ++ [parent]) (pid0 :: vis) pid h
      | none => exact ih q (pid0 :: vis) pid h

theorem rewardInitLoop_q_origin (g : ViewGraph) :
    ∀ pids q vis, ∀ c ∈ (rewardInitLoop g pids q vis).1,
      c ∈ q ∨ ∃ pid ∈ pids, lookupTx g pid = some c := by
  intro pids
  induction pids with
  | nil => intro q vis c hc; exact .inl hc
  | cons pid0 rest ih =>
    intro q vis c hc
    unfold rewardInitLoop at hc
    cases hl0 : lookupTx g pid0 with
    | some parent =>
      rw [hl0] at hc
      rcases ih (q ++ [parent]) (pid0 :: vis) c hc with h | ⟨pid, hpid, hl⟩
      · rcases List.mem_append.mp h with h | h
        · exact .inl h
        · have : c = parent := by simpa using h
          exact .inr ⟨pid0, by simp, this ▸ hl0⟩
      · exact .inr ⟨pid, by simp [hpid], hl⟩
    | none =>
      rw [hl0] at hc
      rcases ih q (pid0 :: vis) c hc with h | ⟨pid, hpid, hl⟩
      · exact .inl h
      · exact .inr ⟨pid, by simp [hpid], hl⟩

theorem rewardInitLoop_found_enqueued (g : ViewGraph) :
    ∀ pids q vis, ∀ pid ∈ pids, ∀ p, lookupTx g pid = some p →
      p ∈ (rewardInitLoop g pids q vis).1 := by
  intro pids
  induction pids with
  | nil => intro q vis pid h; cases h
  | cons pid0 rest ih =>
    intro q vis pid hpid p hl
    unfold rewardInitLoop
    rcases List.mem_cons.mp hpid with h | h
    · subst h
      rw [hl]
      exact rewardInitLoop_q_sub g rest (q ++ [p]) (pid :: vis) p (by simp)
    · cases hl0 : lookupTx g pid0 with
      | some parent => exact ih (q ++ [parent]) (pid0 :: vis) pid h p hl
      | none => exact ih q (pid0 :: vis) pid h p hl

theorem rewardInitLoop_vis_origin (g : ViewGraph) :
    ∀ pids q vis, ∀ i ∈ (rewardInitLoop g pids q vis).2,
      i ∈ vis ∨ i ∈ pids := by
  intro pids
  induction pids with
  | nil => intro q vis i hi; exact .inl hi
  | cons pid0 rest ih =>
    intro q vis i hi
    unfold rewardInitLoop at hi
    cases hl0 : lookupTx g pid0 with
    | some parent =>
      rw [hl0] at hi
      rcases ih (q ++ [parent]) (pid0 :: vis) i hi with h | h
      · rcases List.mem_cons.mp h with h | h
        · exact .inr (by simp [h])
        · exact .inl h
      · exact .inr (by simp [h])
    | none =>
      rw [hl0] at hi
      rcases ih q (pid0 :: vis) i hi with h | h
      · rcases List.mem_cons.mp h with h | h
        · exact .inr (by simp [h])
        · exact .inl h
      · exact .inr (by simp [h])

/-! ### Soundness and completeness of the reward traversal -/

theorem rewardBFS_sound (g : ViewGraph) (cfg : RewardConfig) (ss : Snapshot)
    (tx : CTx) :
    ∀ fuel q vis acc R, rewardBFS g cfg ss tx fuel q vis acc = some R →
      (∀ c ∈ q, AncestorOf g tx c) →
      (∀ c ∈ acc, eligibleAncestor g cfg ss tx c) →
      ∀ c ∈ R, eligibleAncestor g cfg ss tx c := by
  intro fuel
  induction fuel with
  | zero =>
    intro q vis acc R h hq hacc c hc
    cases q with
    | nil =>
      simp only [rewardBFS] at h
      cases h
      exact hacc c hc
    | cons a as => simp [rewardBFS] at h
  | succ fuel ih =>
    intro q vis acc R h hq hacc c hc
    cases q with
    | nil =>
      simp only [rewardBFS] at h
      cases h
      exact hacc c hc
    | cons popped rest =>
      simp only [rewardBFS] at h
      by_cases hw : popped.depth + cfg.maxDepthDiff < tx.depth
      · rw [if_pos hw] at h
        exact ih rest vis acc R h (fun c hc => hq c (by simp [hc])) hacc c hc
      · rw [if_neg hw] at h
        have hqv : ∀ d ∈ (enqueueUnvisited g popped.parentIDs rest vis).1,
            AncestorOf g tx d := by
          intro d hd
          rcases enqueueUnvisited_q_origin g popped.parentIDs rest vis d hd with
            hdq | ⟨pid, hpid, hl⟩
          · exact hq d (by simp [hdq])
          · exact Relation.TransGen.tail (hq popped (by simp)) ⟨pid, hpid, hl⟩
        by_cases he : rewardEligible cfg ss tx popped
        · rw [if_pos he] at h
          refine ih _ _ _ _ h hqv ?_ c hc
          intro d hd
          rcases List.mem_append.mp hd with hd | hd
          · exact hacc d hd
          · have hdp : d = popped := by simpa using hd
            subst hdp
            exact ⟨hq d (by simp), by omega, he.1, he.2⟩
        · rw [if_neg he] at h
          exact ih _ _ _ _ h hqv hacc c hc

/-- What processing a queue element guarantees, relative to a visited
set and a candidate accumulator: if the element lies in the eligible
depth window, it was collected when eligible and all its parent IDs got
visited. -/
def poppedProp (cfg : RewardConfig) (ss : Snapshot) (tx : CTx)
    (vis : List Nat) (acc : List CTx) (b : CTx) : Prop :=
  tx.depth ≤ b.depth + cfg.maxDepthDiff →
    ((rewardEligible cfg ss tx b → b ∈ acc) ∧ ∀ pid ∈ b.parentIDs, pid ∈ vis)

/-- Invariant of the reward traversal: a visited ID present in the
view-graph is either still queued or has already been processed. -/
def bfsInv (g : ViewGraph) (cfg : RewardConfig) (ss : Snapshot) (tx : CTx)
    (q : List CTx) (vis : List Nat) (acc : List CTx) : Prop :=
  ∀ pid b, pid ∈ vis → lookupTx g pid = some b →
    b ∈ q ∨ poppedProp cfg ss tx vis acc b

theorem poppedProp_mono {cfg : RewardConfig} {ss : Snapshot} {tx : CTx}
    {vis vis2 : List Nat} {acc acc2 : List CTx} {b : CTx}
    (hv : ∀ i ∈ vis, i ∈ vis2) (ha : ∀ c ∈ acc, c ∈ acc2)
    (h : poppedProp cfg ss tx vis acc b) : poppedProp cfg ss tx vis2 acc2 b :=
  fun hwin => ⟨fun he => ha b ((h hwin).1 he), fun pid hpid => hv pid ((h hwin).2 pid hpid)⟩

theorem rewardBFS_complete (g : ViewGraph) (cfg : RewardConfig) (ss : Snapshot)
    (tx : CTx) :
    ∀ fuel q vis acc R, rewardBFS g cfg ss tx fuel q vis acc = some R →
      bfsInv g cfg ss tx q vis acc →
      ∃ visF : List Nat, (∀ i ∈ vis, i ∈ visF) ∧
        (∀ pid b, pid ∈ visF → lookupTx g pid = some b →
          tx.depth ≤ b.depth + cfg.maxDepthDiff →
            ((rewardEligible cfg ss tx b → b ∈ R) ∧
              ∀ pid2 ∈ b.parentIDs, pid2 ∈ visF)) := by
  intro fuel
  induction fuel with
  | zero =>
    intro q vis acc R h hinv
    cases q with
    | nil =>
      simp only [rewardBFS] at h
      cases h
      refine ⟨vis, fun i hi => hi, ?_⟩
      intro pid b hpid hl hwin
      rcases hinv pid b hpid hl with hq | hp
      · cases hq
      · exact hp hwin
    | cons a as => simp [rewardBFS] at h
  | succ fuel ih =>
    intro q vis acc R h hinv
    cases q with
    | nil =>
      simp only [rewardBFS] at h
      cases h
      refine ⟨vis, fun i hi => hi, ?_⟩
      intro pid b hpid hl hwin
      rcases hinv pid b hpid hl with hq | hp
      · cases hq
      · exact hp hwin
    | cons popped rest =>
      simp only [rewardBFS] at h
      by_cases hw : popped.depth + cfg.maxDepthDiff < tx.depth
      · rw [if_pos hw] at h
        have hinv2 : bfsInv g cfg ss tx rest vis acc := by
          intro pid b hpid hl
          rcases hinv pid b hpid hl with hq | hp
          · rcases List.mem_cons.mp hq with hq | hq
            · subst hq
              exact .inr (fun hwin => absurd hwin (by omega))
            · exact .inl hq
          · exact .inr hp
        exact ih rest vis acc R h hinv2
      · rw [if_neg hw] at h
        set acc2 := if rewardEligible cfg ss tx popped then acc ++ [popped] else acc
          with hacc2
        have haccsub : ∀ c ∈ acc, c ∈ acc2 := by
          intro c hc
          rw [hacc2]
          split <;> simp [hc]
        have hvsub : ∀ i ∈ vis, i ∈ (enqueueUnvisited g popped.parentIDs rest vis).2 :=
          enqueueUnvisited_vis_sub g popped.parentIDs rest vis
        have hinv2 : bfsInv g cfg ss tx (enqueueUnvisited g popped.parentIDs rest vis).1
            (enqueueUnvisited g popped.parentIDs rest vis).2 acc2 := by
          intro pid b hpid hl
          by_cases hpv : pid ∈ vis
          · rcases hinv pid b hpv hl with hq | hp
            · rcases List.mem_cons.mp hq with hq | hq
              · subst hq
                refine .inr (fun hwin => ⟨fun he => ?_, fun pid2 hp2 => ?_⟩)
                · rw [hacc2, if_pos he]
                  simp
                · exact enqueueUnvisited_pids_vis g b.parentIDs rest vis pid2 hp2
              · exact .inl (enqueueUnvisited_q_sub g popped.parentIDs rest vis b hq)
            · exact .inr (poppedProp_mono hvsub haccsub hp)
          · have hporig := enqueueUnvisited_vis_origin g popped.parentIDs rest vis pid hpid
            rcases hporig with hv | hpp
            · exact absurd hv hpv
            · exact .inl (enqueueUnvisited_fresh_enqueued g popped.parentIDs rest vis
                pid hpp hpv b hl)
        obtain ⟨visF, hsub, hclosed⟩ := ih _ _ _ R h hinv2
        exact ⟨visF, fun i hi => hsub i (hvsub i hi), hclosed⟩

/-- C5 amended: under the view-graph depth invariant (depth strictly
decreases along present-parent edges), whenever the bounded reward
traversal completes, its candidate list holds exactly the ancestors of
the rewarded transaction within `sys.MaxEligibleParentsDepthDiff` of its
depth whose sender differs from the transaction's sender and whose
stake STRICTLY exceeds `sys.MinimumStake`. -/
theorem rewardCandidates_spec (g : ViewGraph) (cfg : RewardConfig)
    (ss : Snapshot) (tx : CTx) (fuel : Nat) (R : List CTx) (a : CTx)
    (hmono : depthMono g tx = true)
    (hrun : rewardCandidates g cfg ss tx fuel = some R) :
    a ∈ R ↔ eligibleAncestor g cfg ss tx a := by
  unfold rewardCandidates at hrun
  constructor
  · intro haR
    refine rewardBFS_sound g cfg ss tx fuel _ _ _ R hrun ?_ (by simp) a haR
    intro c hc
    rcases rewardInitLoop_q_origin g tx.parentIDs [] [] c hc with h | ⟨pid, hpid, hl⟩
    · cases h
    · exact Relation.TransGen.single ⟨pid, hpid, hl⟩
  · rintro ⟨hanc, hwin, hsend, hstake⟩
    have hinv0 : bfsInv g cfg ss tx (rewardInitLoop g tx.parentIDs [] []).1
        (rewardInitLoop g tx.parentIDs [] []).2 [] := by
      intro pid b hpid hl
      left
      rcases rewardInitLoop_vis_origin g tx.parentIDs [] [] pid hpid with h | h
      · cases h
      · exact rewardInitLoop_found_enqueued g tx.parentIDs [] [] pid h b hl
    obtain ⟨visF, hsub, hclosed⟩ :=
      rewardBFS_complete g cfg ss tx fuel _ _ _ R hrun hinv0
    have main : ∀ b, AncestorOf g tx b →
        tx.depth ≤ b.depth + cfg.maxDepthDiff →
        lookupTx g b.id = some b ∧ b.id ∈ visF := by
      intro b hb
      induction hb with
      | single h1 =>
        intro hwinb
        obtain ⟨pid, hpid, hl⟩ := h1
        have hid := lookupTx_id hl
        refine ⟨by rw [hid]; exact hl, ?_⟩
        rw [hid]
        exact hsub pid (rewardInitLoop_pids_vis g tx.parentIDs [] [] pid hpid)
      | tail hb2 h1 ih =>
        rename_i b2 c2
        intro hwinc
        obtain ⟨pid, hpid, hl⟩ := h1
        have hbmem : b2 ∈ g := ancestorOf_mem hb2
        have hdlt : c2.depth < b2.depth :=
          depthMono_parent hmono (.inr hbmem) ⟨pid, hpid, hl⟩
        have hwinb : tx.depth ≤ b2.depth + cfg.maxDepthDiff := by omega
        obtain ⟨hlb, hbvis⟩ := ih hwinb
        have hcl := hclosed b2.id b2 hbvis hlb hwinb
        have hpidvis : pid ∈ visF := hcl.2 pid hpid
        have hid := lookupTx_id hl
        exact ⟨by rw [hid]; exact hl, by rw [hid]; exact hpidvis⟩
    obtain ⟨hla, havis⟩ := main a hanc hwin
    exact (hclosed a.id a havis hla hwin).1 ⟨hsend, hstake⟩

/-- C5 counterexample: an ancestor within the depth window, from a
different sender, with stake exactly equal to `sys.MinimumStake`
satisfies every condition of the claim's candidate set (stake is
greater than OR EQUAL to the minimum stake), yet the traversal's
candidate list is empty — the code demands strictly greater stake. -/
theorem rewardCandidates_counterexample :
    rewardCandidates [⟨2, 200, [], 1, 0⟩] ⟨2, 5, 1⟩ ⟨0, [], [(200, 5)]⟩
        ⟨1, 300, [2], 2, 0⟩ 10 = some [] ∧
    AncestorOf [⟨2, 200, [], 1, 0⟩] ⟨1, 300, [2], 2, 0⟩ ⟨2, 200, [], 1, 0⟩ ∧
    (⟨1, 300, [2], 2, 0⟩ : CTx).depth ≤ (⟨2, 200, [], 1, 0⟩ : CTx).depth + 2 ∧
    (⟨2, 200, [], 1, 0⟩ : CTx).sender ≠ (⟨1, 300, [2], 2, 0⟩ : CTx).sender ∧
    readAccountStake ⟨0, [], [(200, 5)]⟩ 200 ≥ 5 :=
  ⟨by rfl, Relation.TransGen.single ⟨2, by decide, by rfl⟩, by decide, by decide,
    by decide⟩

/-- Concrete view-graph for the C5 witness. -/
def c5Graph : ViewGraph := [⟨0, 100, [], 0, 0⟩, ⟨2, 200, [0], 1, 0⟩]

/-- Concrete snapshot for the C5 witness: account 200 holds stake 10. -/
def c5SS : Snapshot := ⟨0, [], [(200, 10)]⟩

/-- Witness for C5's amended theorem at a concrete graph whose traversal
finds exactly one eligible ancestor. -/
theorem rewardCandidates_spec_witness :
    (⟨2, 200, [0], 1, 0⟩ : CTx) ∈ [(⟨2, 200, [0], 1, 0⟩ : CTx)] ↔
      eligibleAncestor c5Graph ⟨2, 1, 1⟩ c5SS ⟨1, 300, [2], 2, 0⟩
        ⟨2, 200, [0], 1, 0⟩ :=
  rewardCandidates_spec c5Graph ⟨2, 1, 1⟩ c5SS ⟨1, 300, [2], 2, 0⟩ 10
    [⟨2, 200, [0], 1, 0⟩] ⟨2, 200, [0], 1, 0⟩ (by rfl) (by rfl)

end Wavelet
